import Mathlib

/-!
Verification of the blob-converter pipeline: the binary blob wire format
(single image and animated sequence), the grid quantization shape, the
backup-before-overwrite vault, fps resolution, output-path extension
handling, directory frame gathering, and the text preview ramp.

The Python sources are embedded shallowly: pure computations become Lean
functions on Nat / Int / Q and lists of bytes (Nat below 256); the file
system touched by one conversion becomes an explicit state record; fallible
operations carry an explicit error channel.
-/

namespace BlobConv

/-- Grayscale raster image (mode "L" of the imaging library): width, height
and a brightness sample per pixel. Samples are reduced mod 256 when the
raster is serialized, one byte per cell. -/
structure Img where
  width : Nat
  height : Nat
  px : Nat → Nat → Nat

/-- Image.convert("L"): color-to-luminance conversion. Frames are modelled
directly as brightness rasters, so the channel conversion is the identity on
the model; it preserves the dimensions, which is all the claims use. -/
def convertL (i : Img) : Img := i

/-- Image.resize((cols, rows), LANCZOS): yields an image of exactly cols by
rows samples. The Lanczos resampling arithmetic is floating point and is
modelled as deterministic point sampling; every claim depends only on the
output dimensions, the row-major serialization and determinism, never on the
resampled sample values. -/
def resize (i : Img) (cols rows : Nat) : Img :=
  ⟨cols, rows, fun x y => i.px (x * i.width / cols) (y * i.height / rows)⟩

/-- Image.tobytes() on a mode "L" image: one byte per cell in row-major
order, top-left origin: byte k is the sample at column k mod width of row
k div width. -/
def tobytes (i : Img) : List Nat :=
  (List.range (i.height * i.width)).map fun k => i.px (k % i.width) (k / i.width) % 256

/-- One field of struct.pack "<H": an unsigned 16-bit little-endian value as
two bytes. struct.pack raises for values outside 0..65535; every modelled
call site passes a value in range, where the mod and div below are exact. -/
def packU16 (n : Nat) : List Nat := [n % 256, n / 256 % 256]

/-- Little-endian u16 read back at byte offset i (0 when out of range). -/
def u16At (bs : List Nat) (i : Nat) : Nat := bs.getD i 0 + 256 * bs.getD (i + 1) 0

/-- convert_image_to_ascii_bin, write phase: the byte string written at
output_path is struct.pack("<HH", cols, rows) followed by the resized
grayscale raster. -/
def convert_image_to_ascii_bin (img : Img) (cols rows : Nat) : List Nat :=
  packU16 cols ++ packU16 rows ++ tobytes (resize (convertL img) cols rows)

/-- One frame of a sequence body: gray = img.convert("L") resized to
(cols, rows), then gray.tobytes(). -/
def encodeFrame (cols rows : Nat) (img : Img) : List Nat :=
  tobytes (resize (convertL img) cols rows)

/-- The frame-count truncation of convert_sequence_to_blob: when more than
65535 frames are supplied, keep exactly the first 65535 and continue. -/
def truncate65535 {α : Type} (l : List α) : List α :=
  if l.length > 65535 then l.take 65535 else l

/-- convert_sequence_to_blob, successful run: truncate the frame list, then
write struct.pack("<HHHH", cols, rows, num_frames, fps) followed by the
encoded frames in order. -/
def convert_sequence_to_blob (frames : List Img) (cols rows fps : Nat) : List Nat :=
  let fs := truncate65535 frames
  packU16 cols ++ packU16 rows ++ packU16 fs.length ++ packU16 fps ++
    fs.flatMap (encodeFrame cols rows)

/-- ASCII_RAMP = " .:-=+*#%@", the fixed 10-character ramp from darkest to
brightest used by the preview routes. -/
def ASCII_RAMP : List Char := " .:-=+*#%@".toList

/-- Preview character index for brightness v:
idx = brightness * (len(ASCII_RAMP) - 1) // 255. -/
def rampIdx (v : Nat) : Nat := v * (ASCII_RAMP.length - 1) / 255

/-- The service-boundary clamp max(1, min(n, 500)) applied to requested grid
dimensions; the form fields are arbitrary integers. -/
def clamp500 (n : Int) : Nat := (max 1 (min n 500)).toNat

/-- The preview route: clamp cols and rows, quantize the uploaded image, and
build rows lines of cols ramp characters each. The accesses
pixels[row * cols + col] and ASCII_RAMP[idx] are modelled with getD; the
in-bounds facts behind them are proved with C10. -/
def preview_lines (img : Img) (colsReq rowsReq : Int) : List (List Char) :=
  let cols := clamp500 colsReq
  let rows := clamp500 rowsReq
  let pixels := tobytes (resize (convertL img) cols rows)
  (List.range rows).map fun row =>
    (List.range cols).map fun col =>
      ASCII_RAMP.getD (rampIdx (pixels.getD (row * cols + col) 0)) ' '

/-- Python truthiness of the optional integer fps argument: None and 0 are
falsy, every other value is truthy. -/
def truthy : Option Int → Bool
  | none => false
  | some n => n != 0

/-- Python round() applied to the source frame rate, on an exact value:
round half to even. -/
def pyRound (q : ℚ) : Int :=
  if q - ⌊q⌋ < 1 / 2 then ⌊q⌋
  else if q - ⌊q⌋ > 1 / 2 then ⌊q⌋ + 1
  else if ⌊q⌋ % 2 = 0 then ⌊q⌋ else ⌊q⌋ + 1

/-- main, directory branch: fps = args.fps if args.fps else 24. -/
def resolve_fps_dir (argsFps : Option Int) : Int :=
  if truthy argsFps then argsFps.getD 0 else 24

/-- main, video branch:
fps = args.fps if args.fps else max(1, int(round(source_fps))). -/
def resolve_fps_video (argsFps : Option Int) (sourceFps : ℚ) : Int :=
  if truthy argsFps then argsFps.getD 0 else max 1 (pyRound sourceFps)

/-- convert_video route: the form fps defaults to 0 when absent, and
actual_fps = fps if fps > 0 else max(1, int(round(source_fps))). -/
def actual_fps (fps : Int) (sourceFps : ℚ) : Int :=
  if fps > 0 then fps else max 1 (pyRound sourceFps)

/-- File and path names are modelled as their character lists. -/
abbrev Name := List Char

/-- str.startswith(p): p is an initial segment of s. -/
def startsWith : Name → Name → Bool
  | _, [] => true
  | [], _ :: _ => false
  | c :: s, d :: p => c == d && startsWith s p

/-- str.endswith(p): p is a final segment of s. -/
def endsWith (s p : Name) : Bool := startsWith s.reverse p.reverse

/-- Python format field {n:03d}: the decimal digits of n, zero-padded on the
left to width 3. -/
def format3 (n : Nat) : Name :=
  let s := (Nat.repr n).toList
  List.replicate (3 - s.length) '0' ++ s

/-- The backup file name f"{base}_{num:03d}_{timestamp}.blob". -/
def backupName (base : Name) (num : Nat) (ts : Name) : Name :=
  base ++ '_' :: (format3 num ++ '_' :: (ts ++ ".blob".toList))

/-- Which of the three fallible backup operations (os.makedirs, os.listdir,
shutil.copy2) raise OSError during a given run. -/
structure BackupOracle where
  makedirsFails : Bool
  listdirFails : Bool
  copyFails : Bool

/-- File-system state seen by one conversion: the byte contents at the
destination path (none when the path does not exist), whether the vault
directory exists, and the vault directory listing. -/
structure FS where
  dest : Option (List Nat)
  vaultDirExists : Bool
  vault : List Name

/-- The try block of backup_blob: each operation either performs its state
change or raises OSError (the returned Bool). On a raise the state reached so
far is kept: the caught exception does not undo completed steps. -/
def backupAttempt (o : BackupOracle) (base ts : Name) (fs : FS) : FS × Bool :=
  if o.makedirsFails then (fs, true)
  else
    let fs1 : FS := { fs with vaultDirExists := true }
    if o.listdirFails then (fs1, true)
    else
      let existing := fs1.vault.filter fun f => startsWith f (base ++ ['_'])
      if o.copyFails then (fs1, true)
      else ({ fs1 with vault := fs1.vault ++ [backupName base (existing.length + 1) ts] }, false)

/-- backup_blob: a no-op when the destination path does not exist; otherwise
it runs the try block and swallows any OSError (except OSError: pass),
returning normally in every case. -/
def backup_blob_run (o : BackupOracle) (base ts : Name) (fs : FS) : FS :=
  if fs.dest.isNone then fs else (backupAttempt o base ts fs).1

/-- convert_image_to_ascii_bin over the file system: the image is decoded and
resized before the destination is touched, backup_blob runs (best effort),
and the header plus body are written at the destination path. -/
def convert_image_run (o : BackupOracle) (base ts : Name)
    (img : Img) (cols rows : Nat) (fs : FS) : FS :=
  let fs1 := backup_blob_run o base ts fs
  { fs1 with dest := some (convert_image_to_ascii_bin img cols rows) }

/-- A frame held by the sequence conversion loop: img.convert("L") either
yields a grayscale raster or raises, because the imaging library decodes
lazily and a corrupt source frame surfaces only inside the write loop. -/
abbrev FrameSrc := Except String Img

/-- The frame loop of convert_sequence_to_blob: each frame is converted,
resized and appended to the open destination file; a decode failure
propagates out of the loop, leaving the bytes already written in the file.
Returns the final file contents and the raised error, if any. -/
def writeFramesLoop (cols rows : Nat) : List FrameSrc → List Nat → List Nat × Option String
  | [], acc => (acc, none)
  | f :: rest, acc =>
    match f with
    | .error e => (acc, some e)
    | .ok img => writeFramesLoop cols rows rest (acc ++ encodeFrame cols rows img)

/-- convert_sequence_to_blob over the file system: truncate to 65535 frames,
run the best-effort backup, then open(output_path, "wb") — which truncates
the destination in place — write the 8-byte header and append each frame in
turn. No scratch location is used; a mid-stream decode failure leaves the
partial bytes at the destination and re-raises. -/
def convert_sequence_run (o : BackupOracle) (base ts : Name)
    (frames : List FrameSrc) (cols rows fps : Nat) (fs : FS) : FS × Option String :=
  let fr := truncate65535 frames
  let fs1 := backup_blob_run o base ts fs
  let header := packU16 cols ++ packU16 rows ++ packU16 fr.length ++ packU16 fps
  let res := writeFramesLoop cols rows fr header
  ({ fs1 with dest := some res.1 }, res.2)

/-- The frames of a fallible frame list that the write loop consumes before
the first decode failure. -/
def okPrefixImgs (frames : List FrameSrc) : List Img :=
  (frames.takeWhile fun f => f.toOption.isSome).filterMap Except.toOption

/-- The first decode error of a fallible frame list, if any. -/
def firstErr : List FrameSrc → Option String
  | [] => none
  | .ok _ :: rest => firstErr rest
  | .error e :: _ => some e

/-- A byte string is a fully valid sequence blob when it is at least a header
and its length matches the frame count and grid its own header declares. -/
def validSeqBlob (bs : List Nat) : Prop :=
  8 ≤ bs.length ∧ bs.length = 8 + u16At bs 4 * (u16At bs 0 * u16At bs 2)

/-- N successive conversions of blobs bytes(1), ..., bytes(N) to one output
path, starting with no destination file and an empty vault; tss gives the
timestamp string of the k-th conversion. Each conversion runs backup_blob and
then (re)writes the destination. -/
def convertN (o : BackupOracle) (base : Name) (tss : Nat → Name)
    (bytes : Nat → List Nat) : Nat → FS
  | 0 => ⟨none, false, []⟩
  | k + 1 =>
    let fs := convertN o base tss bytes k
    let fs1 := backup_blob_run o base (tss (k + 1)) fs
    { fs1 with dest := some (bytes (k + 1)) }

/-- Everything after the last "/" of a path is the base name; the rest,
separator included, is the directory part. -/
def splitBase (p : Name) : Name × Name :=
  let revBase := p.reverse.takeWhile fun c => c != '/'
  ((p.reverse.drop revBase.length).reverse, revBase.reverse)

/-- os.path.splitext: split at the last "." of the base name, unless every
character of the base name before that dot is itself a dot (so ".blob" or
"..." do not split). -/
def splitext (p : Name) : Name × Name :=
  let base := (splitBase p).2
  let dir := (splitBase p).1
  let afterDot := base.reverse.takeWhile fun c => c != '.'
  if afterDot.length = base.length then (p, [])
  else
    let dotIdx := base.length - afterDot.length - 1
    if (base.take dotIdx).any (fun c => c != '.') then
      (dir ++ base.take dotIdx, base.drop dotIdx)
    else (p, [])

/-- main, output coercion of the sequence converter: if the requested output
does not end with ".blob", the extension is replaced with ".blob". -/
def resolve_output_seq (out : Name) : Name :=
  if endsWith out ".blob".toList then out
  else (splitext out).1 ++ ".blob".toList

/-- convert_image_to_ascii_bin writes to output_path exactly as supplied: the
single-image converter has no extension coercion step anywhere. -/
def resolve_output_single (out : Name) : Name := out

/-- The fixed allowed extensions of gather_frames_from_folder, without the
"*." glob pattern part. -/
def EXTS : List Name := ["png", "jpg", "jpeg", "bmp", "tiff"].map String.toList

/-- str.upper() over an ASCII extension. -/
def upperName (s : Name) : Name := s.map Char.toUpper

/-- glob.glob(folder/*.ext) restricted to one directory listing: the pattern
starts with "*", so names beginning with "." are skipped, and a match must
end with "." followed by the extension, case sensitively. -/
def globMatch (ext : Name) (f : Name) : Bool :=
  (match f with | [] => false | c :: _ => c != '.') && endsWith f ('.' :: ext)

/-- Lexicographic comparison of names by code point, as Python compares the
gathered paths; the paths share the folder as a common prefix string, so
comparing base names and comparing full paths agree. -/
def nameLe : Name → Name → Bool
  | [], _ => true
  | _ :: _, [] => false
  | c :: s, d :: t => if c = d then nameLe s t else decide (c < d)

/-- gather_frames_from_folder over a directory listing: for each allowed
extension the lower-case and then the upper-case glob results are appended;
the collected list is then deduplicated and sorted, as sorted(set(files)). -/
def gather_files (listing : List Name) : List Name :=
  List.insertionSort (fun a b => nameLe a b = true)
    (EXTS.flatMap fun ext =>
      listing.filter (globMatch ext) ++ listing.filter (globMatch (upperName ext))).dedup

/-- Stated from the claim, for comparison with gather_files: the file
extension matches one of the allowed extensions case-insensitively, under any
mix of upper and lower case. -/
def extMatchesCI (f : Name) : Bool :=
  EXTS.any fun ext => endsWith (f.map Char.toLower) ('.' :: ext)

/-- The matching rule gather_files actually implements: the exact all-lower
or all-upper form of an allowed extension. -/
def matchesLU (f : Name) : Bool :=
  EXTS.any fun ext => globMatch ext f || globMatch (upperName ext) f

/-! Helper lemmas. -/

theorem rowMajorIdx (w x y : Nat) (hx : x < w) :
    (y * w + x) % w = x ∧ (y * w + x) / w = y := by
  constructor
  · rw [Nat.mul_comm y w, Nat.mul_add_mod]
    exact Nat.mod_eq_of_lt hx
  · rw [Nat.mul_comm y w, Nat.mul_add_div (by omega)]
    simp [Nat.div_eq_of_lt hx]

theorem tobytes_length (i : Img) : (tobytes i).length = i.height * i.width := by
  simp [tobytes]

theorem tobytes_getD (i : Img) (x y : Nat) (hx : x < i.width) (hy : y < i.height) :
    (tobytes i).getD (y * i.width + x) 0 = i.px x y % 256 := by
  have hlt : y * i.width + x < i.height * i.width := by
    calc y * i.width + x < y * i.width + i.width := by omega
    _ = (y + 1) * i.width := by ring
    _ ≤ i.height * i.width := Nat.mul_le_mul_right _ hy
  have hl : y * i.width + x < (tobytes i).length := by rwa [tobytes_length]
  rw [List.getD_eq_getElem _ _ hl]
  simp only [tobytes, List.getElem_map, List.getElem_range]
  rw [(rowMajorIdx i.width x y hx).1, (rowMajorIdx i.width x y hx).2]

theorem tobytes_getD_le (i : Img) (n : Nat) : (tobytes i).getD n 0 ≤ 255 := by
  rcases Nat.lt_or_ge n (tobytes i).length with h | h
  · rw [List.getD_eq_getElem _ _ h]
    simp only [tobytes, List.getElem_map, List.getElem_range]
    omega
  · rw [List.getD_eq_default _ _ h]
    omega

theorem startsWith_append (p s : Name) : startsWith (p ++ s) p = true := by
  induction p with
  | nil => cases s <;> rfl
  | cons c cs ih => simp [startsWith, ih]

theorem endsWith_append (s p : Name) : endsWith (s ++ p) p = true := by
  rw [endsWith, List.reverse_append]
  exact startsWith_append p.reverse s.reverse

theorem u16_roundtrip (n : Nat) (h : n ≤ 65535) : n % 256 + 256 * (n / 256 % 256) = n := by
  omega

theorem u16At_header4 (c r n f : Nat) (body : List Nat) :
    u16At (packU16 c ++ packU16 r ++ packU16 n ++ packU16 f ++ body) 4 =
      n % 256 + 256 * (n / 256 % 256) := by
  simp only [u16At, packU16, List.cons_append, List.nil_append, List.getD_cons_succ,
    List.getD_cons_zero]

theorem encodeFrame_length (cols rows : Nat) (img : Img) :
    (encodeFrame cols rows img).length = rows * cols := by
  simp [encodeFrame, tobytes_length, resize]

theorem flatMap_length_const {α : Type} (f : α → List Nat) (m : Nat) (l : List α)
    (h : ∀ a ∈ l, (f a).length = m) : (l.flatMap f).length = l.length * m := by
  induction l with
  | nil => simp
  | cons a t ih =>
    simp only [List.flatMap_cons, List.length_append, List.length_cons]
    rw [h a (List.mem_cons_self a t), ih fun x hx => h x (List.mem_cons_of_mem a hx)]
    ring

/-! Claim theorems. -/

/-- C9: the preview character index for brightness v equals
v * (rampLength - 1) / 255 with integer division, and the index is monotone
non-decreasing in the brightness. -/
theorem ramp_index_monotone (a b : Nat) (hab : a ≤ b) :
    rampIdx a = a * (ASCII_RAMP.length - 1) / 255 ∧ rampIdx a ≤ rampIdx b := by
  refine ⟨rfl, ?_⟩
  exact Nat.div_le_div_right (Nat.mul_le_mul_right _ hab)

theorem ramp_index_monotone_witness :
    100 ≤ 200 ∧
      (rampIdx 100 = 100 * (ASCII_RAMP.length - 1) / 255 ∧ rampIdx 100 ≤ rampIdx 200) :=
  ⟨by decide, ramp_index_monotone 100 200 (by decide)⟩

/-- C4 counterexample: an explicitly supplied fps of 0 does not override the
detected or default rate. The CLI condition args.fps if args.fps else ...
treats 0 as unset (directory source resolves to 24, video source to the
detected rate), and the service condition fps if fps > 0 else ... does the
same, so the header fps field differs from the explicit value 0. -/
theorem explicit_zero_fps_ignored :
    resolve_fps_dir (some 0) = 24 ∧ resolve_fps_video (some 0) 30 = 30 ∧
    actual_fps 0 30 = 30 := by
  refine ⟨rfl, ?_, ?_⟩ <;>
    norm_num [resolve_fps_video, actual_fps, truthy, pyRound]

/-- C4 amended: an explicit caller-supplied fps overrides any detected source
fps whenever the code treats it as supplied — any nonzero value for the CLI,
any positive value for the service; an explicit 0 is treated as unsupplied.
Without a usable explicit value, a video source resolves to its reported rate
rounded to the nearest integer (half to even) with a floor of 1, and a
directory source resolves to the default 24. The sequence header fps field
equals the resolved value. -/
theorem fps_resolution_policy (f : Int) (s : ℚ) (frames : List Img)
    (cols rows fpsN : Nat) :
    (f ≠ 0 → resolve_fps_dir (some f) = f) ∧
    (f ≠ 0 → resolve_fps_video (some f) s = f) ∧
    (0 < f → actual_fps f s = f) ∧
    resolve_fps_dir none = 24 ∧
    resolve_fps_dir (some 0) = 24 ∧
    resolve_fps_video none s = max 1 (pyRound s) ∧
    actual_fps 0 s = max 1 (pyRound s) ∧
    (fpsN ≤ 65535 → u16At (convert_sequence_to_blob frames cols rows fpsN) 6 = fpsN) := by
  refine ⟨?_, ?_, ?_, rfl, rfl, ?_, ?_, ?_⟩
  · intro hf
    simp [resolve_fps_dir, truthy, hf]
  · intro hf
    simp [resolve_fps_video, truthy, hf]
  · intro hf
    simp [actual_fps, hf]
  · simp [resolve_fps_video, truthy]
  · simp [actual_fps]
  · intro hf
    simp only [convert_sequence_to_blob, u16At, packU16, List.cons_append, List.nil_append,
      List.getD_cons_succ, List.getD_cons_zero]
    exact u16_roundtrip fpsN hf

theorem fps_resolution_policy_witness :
    (12 : Int) ≠ 0 ∧ resolve_fps_dir (some 12) = 12 :=
  ⟨by decide, (fps_resolution_policy 12 30 [] 1 1 24).1 (by decide)⟩

/-- C8 counterexample: the single-image converter writes to the requested
output path exactly as supplied; for the request "foo.txt" the blob lands at
"foo.txt", which does not end in ".blob". -/
theorem single_output_not_coerced :
    resolve_output_single "foo.txt".toList = "foo.txt".toList ∧
    endsWith "foo.txt".toList ".blob".toList = false :=
  ⟨rfl, by decide⟩

/-- C8 amended: only the sequence converter coerces the output extension —
its result path always ends in ".blob" — while the single-image converter
writes to the requested path unchanged, with no extension coercion. -/
theorem output_extension_policy (out : Name) :
    endsWith (resolve_output_seq out) ".blob".toList = true ∧
    resolve_output_single out = out := by
  refine ⟨?_, rfl⟩
  rw [resolve_output_seq]
  by_cases h : endsWith out ".blob".toList = true
  · rw [if_pos h]
    exact h
  · rw [if_neg h]
    exact endsWith_append (splitext out).1 ".blob".toList

theorem output_extension_policy_witness :
    endsWith (resolve_output_seq "clip.mp4".toList) ".blob".toList = true ∧
    resolve_output_single "clip.mp4".toList = "clip.mp4".toList :=
  output_extension_policy "clip.mp4".toList

/-- C2: for cols, rows in [1, 500] and any decodable source image, the single
conversion writes exactly 4 + cols * rows bytes; the first four bytes are
cols then rows as little-endian u16, so decoding the header yields back the
same cols and rows, and byte 4 + (y * cols + x) is the cell of row y, column
x of the quantized grid, i.e. the body holds the cols * rows one-byte cells
in row-major order. -/
theorem single_blob_layout (img : Img) (cols rows x y : Nat)
    (hc1 : 1 ≤ cols) (hc : cols ≤ 500) (hr1 : 1 ≤ rows) (hr : rows ≤ 500) :
    (convert_image_to_ascii_bin img cols rows).length = 4 + cols * rows ∧
    u16At (convert_image_to_ascii_bin img cols rows) 0 = cols ∧
    u16At (convert_image_to_ascii_bin img cols rows) 2 = rows ∧
    (y < rows → x < cols →
      (convert_image_to_ascii_bin img cols rows).getD (4 + (y * cols + x)) 0 =
        (resize (convertL img) cols rows).px x y % 256) := by
  refine ⟨?_, ?_, ?_, ?_⟩
  · simp only [convert_image_to_ascii_bin, List.length_append, tobytes_length, resize, packU16,
      List.length_cons, List.length_nil]
    ring
  · simp only [convert_image_to_ascii_bin, u16At, packU16, List.cons_append, List.nil_append,
      List.getD_cons_succ, List.getD_cons_zero]
    exact u16_roundtrip cols (by omega)
  · simp only [convert_image_to_ascii_bin, u16At, packU16, List.cons_append, List.nil_append,
      List.getD_cons_succ, List.getD_cons_zero]
    exact u16_roundtrip rows (by omega)
  · intro hy hx
    rw [convert_image_to_ascii_bin]
    have h4 : (packU16 cols ++ packU16 rows).length = 4 := by simp [packU16]
    rw [List.getD_append_right _ _ _ _ (by rw [h4]; omega), h4]
    have : 4 + (y * cols + x) - 4 = y * cols + x := by omega
    rw [this]
    have hw : x < (resize (convertL img) cols rows).width := hx
    have hh : y < (resize (convertL img) cols rows).height := hy
    have := tobytes_getD (resize (convertL img) cols rows) x y hw hh
    simpa [resize] using this

theorem single_blob_layout_witness :
    1 ≤ 4 ∧ 4 ≤ 500 ∧ 1 ≤ 2 ∧ 2 ≤ 500 ∧
      ((convert_image_to_ascii_bin ⟨4, 2, fun _ _ => 128⟩ 4 2).length = 4 + 4 * 2 ∧
        u16At (convert_image_to_ascii_bin ⟨4, 2, fun _ _ => 128⟩ 4 2) 0 = 4 ∧
        u16At (convert_image_to_ascii_bin ⟨4, 2, fun _ _ => 128⟩ 4 2) 2 = 2 ∧
        (1 < 2 → 1 < 4 →
          (convert_image_to_ascii_bin ⟨4, 2, fun _ _ => 128⟩ 4 2).getD (4 + (1 * 4 + 1)) 0 =
            (resize (convertL ⟨4, 2, fun _ _ => 128⟩) 4 2).px 1 1 % 256)) :=
  ⟨by decide, by decide, by decide, by decide,
    single_blob_layout ⟨4, 2, fun _ _ => 128⟩ 4 2 1 1 (by decide) (by decide) (by decide)
      (by decide)⟩

/-- C3: supplying more than 65535 frames does not fail the conversion: the
header frameCount field is 65535, the body holds exactly the first 65535
frames in order, and the total size is 8 + 65535 * cols * rows bytes. -/
theorem sequence_truncation_bound (frames : List Img) (cols rows fps : Nat)
    (h : frames.length > 65535) :
    (convert_sequence_to_blob frames cols rows fps).length = 8 + 65535 * (cols * rows) ∧
    u16At (convert_sequence_to_blob frames cols rows fps) 4 = 65535 ∧
    (convert_sequence_to_blob frames cols rows fps).drop 8 =
      (frames.take 65535).flatMap (encodeFrame cols rows) := by
  have htr : truncate65535 frames = frames.take 65535 := by
    simp [truncate65535, h]
  have hlen : (frames.take 65535).length = 65535 := by
    rw [List.length_take]
    omega
  refine ⟨?_, ?_, ?_⟩
  · simp only [convert_sequence_to_blob, htr, List.length_append, packU16, List.length_cons,
      List.length_nil]
    rw [flatMap_length_const (encodeFrame cols rows) (rows * cols) _
      fun a _ => encodeFrame_length cols rows a, hlen]
    ring
  · simp only [convert_sequence_to_blob, htr, hlen]
    rw [u16At_header4]
  · rw [convert_sequence_to_blob]
    simp only [htr]
    exact List.drop_left' (by simp [packU16])

theorem sequence_truncation_bound_witness :
    (List.replicate 65536 (⟨1, 1, fun _ _ => 0⟩ : Img)).length > 65535 ∧
      ((convert_sequence_to_blob (List.replicate 65536 ⟨1, 1, fun _ _ => 0⟩) 1 1 24).length =
          8 + 65535 * (1 * 1) ∧
        u16At (convert_sequence_to_blob (List.replicate 65536 ⟨1, 1, fun _ _ => 0⟩) 1 1 24) 4 =
          65535 ∧
        (convert_sequence_to_blob (List.replicate 65536 ⟨1, 1, fun _ _ => 0⟩) 1 1 24).drop 8 =
          ((List.replicate 65536 (⟨1, 1, fun _ _ => 0⟩ : Img)).take 65535).flatMap
            (encodeFrame 1 1)) :=
  ⟨by norm_num,
    sequence_truncation_bound (List.replicate 65536 ⟨1, 1, fun _ _ => 0⟩) 1 1 24 (by norm_num)⟩

theorem rampIdx_le_nine (v : Nat) (h : v ≤ 255) : rampIdx v ≤ 9 := by
  have h9 : ASCII_RAMP.length - 1 = 9 := rfl
  rw [rampIdx, h9]
  calc v * 9 / 255 ≤ 255 * 9 / 255 := Nat.div_le_div_right (Nat.mul_le_mul_right _ h)
  _ = 9 := by norm_num

theorem clamp500_bounds (n : Int) : 1 ≤ clamp500 n ∧ clamp500 n ≤ 500 := by
  unfold clamp500
  omega

theorem ramp_getD_mem (k : Nat) : ASCII_RAMP.getD k ' ' ∈ ASCII_RAMP := by
  rcases Nat.lt_or_ge k ASCII_RAMP.length with h | h
  · rw [List.getD_eq_getElem _ _ h]
    exact List.getElem_mem h
  · rw [List.getD_eq_default _ _ h]
    decide

/-- C10: for every uploaded image and requested grid, the preview text has
exactly rows lines of cols characters each, with cols and rows the requested
values clamped to [1, 500]; every character is drawn from the fixed
10-character ramp, and the computed ramp index stays in [0, 9] for every
brightness value in [0, 255], so the ramp indexing never goes out of
bounds. -/
theorem preview_shape_safe (img : Img) (colsReq rowsReq : Int) (line : List Char) (ch : Char)
    (v : Nat) :
    (preview_lines img colsReq rowsReq).length = clamp500 rowsReq ∧
    1 ≤ clamp500 colsReq ∧ clamp500 colsReq ≤ 500 ∧
    1 ≤ clamp500 rowsReq ∧ clamp500 rowsReq ≤ 500 ∧
    (line ∈ preview_lines img colsReq rowsReq → line.length = clamp500 colsReq) ∧
    (line ∈ preview_lines img colsReq rowsReq → ch ∈ line → ch ∈ ASCII_RAMP) ∧
    (v ≤ 255 → rampIdx v ≤ 9) := by
  refine ⟨?_, (clamp500_bounds colsReq).1, (clamp500_bounds colsReq).2,
    (clamp500_bounds rowsReq).1, (clamp500_bounds rowsReq).2, ?_, ?_, rampIdx_le_nine v⟩
  · simp [preview_lines]
  · intro hl
    simp only [preview_lines, List.mem_map, List.mem_range] at hl
    obtain ⟨row, _, rfl⟩ := hl
    simp
  · intro hl hch
    simp only [preview_lines, List.mem_map, List.mem_range] at hl
    obtain ⟨row, _, rfl⟩ := hl
    simp only [List.mem_map, List.mem_range] at hch
    obtain ⟨col, _, rfl⟩ := hch
    exact ramp_getD_mem _

theorem preview_shape_safe_witness :
    (List.replicate 3 '-' ∈ preview_lines ⟨2, 2, fun _ _ => 100⟩ 3 2) ∧
      (List.replicate 3 '-').length = clamp500 3 :=
  ⟨by decide,
    (preview_shape_safe ⟨2, 2, fun _ _ => 100⟩ 3 2 (List.replicate 3 '-') '-' 0).2.2.2.2.2.1
      (by decide)⟩

/-- C6: backup failures never abort the conversion or surface to the caller.
When the destination exists, backup_blob returns the try-block state whether
or not an OSError was raised inside (the exception is caught and swallowed),
and the conversion outcome — the bytes written at the destination and the
error result — is identical under every combination of failures of the
makedirs, listdir and copy steps. -/
theorem backup_failures_harmless (o o2 : BackupOracle) (base ts : Name) (img : Img)
    (frames : List FrameSrc) (cols rows fps : Nat) (fs : FS) :
    (convert_image_run o base ts img cols rows fs).dest =
      some (convert_image_to_ascii_bin img cols rows) ∧
    (convert_image_run o base ts img cols rows fs).dest =
      (convert_image_run o2 base ts img cols rows fs).dest ∧
    (convert_sequence_run o base ts frames cols rows fps fs).2 =
      (convert_sequence_run o2 base ts frames cols rows fps fs).2 ∧
    (convert_sequence_run o base ts frames cols rows fps fs).1.dest =
      (convert_sequence_run o2 base ts frames cols rows fps fs).1.dest ∧
    (fs.dest.isNone = false →
      backup_blob_run o base ts fs = (backupAttempt o base ts fs).1) := by
  refine ⟨rfl, rfl, rfl, rfl, ?_⟩
  intro h
  simp [backup_blob_run, h]

theorem backup_failures_harmless_witness :
    ((⟨some [1], false, []⟩ : FS).dest.isNone = false) ∧
      backup_blob_run ⟨true, false, false⟩ [] [] ⟨some [1], false, []⟩ =
        (backupAttempt ⟨true, false, false⟩ [] [] ⟨some [1], false, []⟩).1 :=
  ⟨by decide,
    (backup_failures_harmless ⟨true, false, false⟩ ⟨false, false, false⟩ [] []
        ⟨1, 1, fun _ _ => 0⟩ [] 1 1 24 ⟨some [1], false, []⟩).2.2.2.2 (by decide)⟩

theorem backupName_startsWith (base : Name) (num : Nat) (ts : Name) :
    startsWith (backupName base num ts) (base ++ ['_']) = true := by
  have h : backupName base num ts =
      (base ++ ['_']) ++ (format3 num ++ '_' :: (ts ++ ".blob".toList)) := by
    simp [backupName]
  rw [h]
  exact startsWith_append _ _

theorem convertN_succ (o : BackupOracle) (base : Name) (tss : Nat → Name)
    (bytes : Nat → List Nat) (k : Nat) :
    convertN o base tss bytes (k + 1) =
      { backup_blob_run o base (tss (k + 1)) (convertN o base tss bytes k) with
        dest := some (bytes (k + 1)) } := rfl

theorem convertN_spec (base : Name) (tss : Nat → Name) (bytes : Nat → List Nat) (n : Nat) :
    (convertN ⟨false, false, false⟩ base tss bytes n).dest =
        (if n = 0 then none else some (bytes n)) ∧
      (convertN ⟨false, false, false⟩ base tss bytes n).vault =
        (List.range (n - 1)).map fun i => backupName base (i + 1) (tss (i + 2)) := by
  induction n with
  | zero => exact ⟨rfl, rfl⟩
  | succ k ih =>
    obtain ⟨ihd, ihv⟩ := ih
    refine ⟨by simp [convertN], ?_⟩
    rcases k with _ | k'
    · have h0 : (convertN ⟨false, false, false⟩ base tss bytes 0).dest = none := ihd
      simp [convertN, backup_blob_run, h0]
    · have hd : (convertN ⟨false, false, false⟩ base tss bytes (k' + 1)).dest =
          some (bytes (k' + 1)) := by simpa using ihd
      have hfil : ((convertN ⟨false, false, false⟩ base tss bytes (k' + 1)).vault.filter
          fun f => startsWith f (base ++ ['_'])) =
          (convertN ⟨false, false, false⟩ base tss bytes (k' + 1)).vault := by
        rw [List.filter_eq_self]
        intro a ha
        rw [ihv] at ha
        simp only [List.mem_map, List.mem_range] at ha
        obtain ⟨i, _, rfl⟩ := ha
        exact backupName_startsWith base (i + 1) (tss (i + 2))
      have hcnt : ((convertN ⟨false, false, false⟩ base tss bytes (k' + 1)).vault.filter
          fun f => startsWith f (base ++ ['_'])).length = k' := by
        rw [hfil, ihv]
        simp
      rw [convertN_succ]
      simp only [backup_blob_run, hd, Option.isNone_some, Bool.false_eq_true, if_false,
        backupAttempt]
      simp only [hcnt]
      rw [ihv]
      rw [show k' + 1 + 1 - 1 = k' + 1 from rfl, show k' + 1 - 1 = k' from rfl,
        List.range_succ, List.map_append]
      simp

/-- C5: starting from no destination file and an empty vault, N successive
conversions to the same output path on writable storage produce exactly
N - 1 backup files, numbered 1 through N - 1 in increasing order, each
number computed as 1 + the count of existing vault files whose name starts
with the base name followed by an underscore. -/
theorem backup_numbering (base : Name) (tss : Nat → Name) (bytes : Nat → List Nat) (n : Nat) :
    (convertN ⟨false, false, false⟩ base tss bytes n).vault =
        (List.range (n - 1)).map (fun i => backupName base (i + 1) (tss (i + 2))) ∧
      (convertN ⟨false, false, false⟩ base tss bytes n).vault.length = n - 1 :=
  ⟨(convertN_spec base tss bytes n).2, by rw [(convertN_spec base tss bytes n).2]; simp⟩

theorem backup_numbering_witness :
    (convertN ⟨false, false, false⟩ "out".toList (fun _ => "t".toList) (fun _ => [0]) 3).vault =
        (List.range 2).map (fun i => backupName "out".toList (i + 1) "t".toList) ∧
      (convertN ⟨false, false, false⟩ "out".toList (fun _ => "t".toList)
          (fun _ => [0]) 3).vault.length = 2 :=
  backup_numbering "out".toList (fun _ => "t".toList) (fun _ => [0]) 3

theorem writeFramesLoop_spec (cols rows : Nat) (frames : List FrameSrc) (acc : List Nat) :
    writeFramesLoop cols rows frames acc =
      (acc ++ (okPrefixImgs frames).flatMap (encodeFrame cols rows), firstErr frames) := by
  induction frames generalizing acc with
  | nil => simp [writeFramesLoop, okPrefixImgs, firstErr]
  | cons f rest ih =>
    cases f with
    | error e => simp [writeFramesLoop, okPrefixImgs, firstErr, Except.toOption]
    | ok img =>
      rw [writeFramesLoop, ih]
      simp [okPrefixImgs, firstErr, Except.toOption, List.flatMap_cons]

theorem okPrefixImgs_map_ok (imgs : List Img) : okPrefixImgs (imgs.map Except.ok) = imgs := by
  induction imgs with
  | nil => rfl
  | cons a t ih => simpa [okPrefixImgs, Except.toOption] using ih

theorem firstErr_map_ok (imgs : List Img) : firstErr (imgs.map Except.ok) = none := by
  induction imgs with
  | nil => rfl
  | cons a t ih => simpa [firstErr] using ih

theorem truncate65535_map {α β : Type} (g : α → β) (l : List α) :
    truncate65535 (l.map g) = (truncate65535 l).map g := by
  by_cases h : l.length > 65535 <;> simp [truncate65535, h, List.map_take]

instance (bs : List Nat) : Decidable (validSeqBlob bs) := by
  unfold validSeqBlob
  infer_instance

/-- C1 counterexample: a mid-stream frame decode failure leaves a
partially-written blob at the destination. With a valid one-frame blob
already at the output path and a two-frame sequence whose second frame fails
to decode, the run raises, yet afterwards the destination holds neither the
old blob nor any fully valid sequence blob: it holds a 9-byte fragment whose
header announces two frames. -/
theorem seq_decode_failure_leaves_bytes :
    ((convert_sequence_run ⟨false, false, false⟩ [] []
          [Except.ok ⟨1, 1, fun _ _ => 5⟩, Except.error "t"] 1 1 24
          ⟨some (convert_sequence_to_blob [⟨1, 1, fun _ _ => 5⟩] 1 1 24), true, []⟩).2 ≠
        none) ∧
      (convert_sequence_run ⟨false, false, false⟩ [] []
            [Except.ok ⟨1, 1, fun _ _ => 5⟩, Except.error "t"] 1 1 24
            ⟨some (convert_sequence_to_blob [⟨1, 1, fun _ _ => 5⟩] 1 1 24), true, []⟩).1.dest ≠
          some (convert_sequence_to_blob [⟨1, 1, fun _ _ => 5⟩] 1 1 24) ∧
      (convert_sequence_run ⟨false, false, false⟩ [] []
            [Except.ok ⟨1, 1, fun _ _ => 5⟩, Except.error "t"] 1 1 24
            ⟨some (convert_sequence_to_blob [⟨1, 1, fun _ _ => 5⟩] 1 1 24), true, []⟩).1.dest ≠
          none ∧
      ¬ validSeqBlob
          ((convert_sequence_run ⟨false, false, false⟩ [] []
                [Except.ok ⟨1, 1, fun _ _ => 5⟩, Except.error "t"] 1 1 24
                ⟨some (convert_sequence_to_blob [⟨1, 1, fun _ _ => 5⟩] 1 1 24),
                  true, []⟩).1.dest.getD []) := by
  decide

/-- C1 amended: the blob is written incrementally, in place, at the
destination path; no scratch location or atomic publish is used. On full
success a fully valid blob exists at the output path, and on a mid-stream
decode failure the call fails with the destination left holding the 8-byte
header plus the frames encoded before the failure, so a partially-written
blob may remain. -/
theorem write_in_place_behavior (o : BackupOracle) (base ts : Name) (frames : List FrameSrc)
    (imgs : List Img) (cols rows fps : Nat) (fs : FS) :
    (convert_sequence_run o base ts frames cols rows fps fs).1.dest =
      some ((packU16 cols ++ packU16 rows ++ packU16 (truncate65535 frames).length ++
          packU16 fps) ++
        (okPrefixImgs (truncate65535 frames)).flatMap (encodeFrame cols rows)) ∧
    (convert_sequence_run o base ts frames cols rows fps fs).2 =
      firstErr (truncate65535 frames) ∧
    (convert_sequence_run o base ts (imgs.map Except.ok) cols rows fps fs).1.dest =
      some (convert_sequence_to_blob imgs cols rows fps) ∧
    (convert_sequence_run o base ts (imgs.map Except.ok) cols rows fps fs).2 = none := by
  refine ⟨?_, ?_, ?_, ?_⟩
  · show some (writeFramesLoop cols rows (truncate65535 frames) _).1 = _
    rw [writeFramesLoop_spec]
  · show (writeFramesLoop cols rows (truncate65535 frames) _).2 = _
    rw [writeFramesLoop_spec]
  · show some (writeFramesLoop cols rows (truncate65535 (imgs.map Except.ok)) _).1 = _
    rw [truncate65535_map, writeFramesLoop_spec, okPrefixImgs_map_ok]
    rw [convert_sequence_to_blob]
    simp [List.length_map]
  · show (writeFramesLoop cols rows (truncate65535 (imgs.map Except.ok)) _).2 = _
    rw [truncate65535_map, writeFramesLoop_spec, firstErr_map_ok]

theorem write_in_place_behavior_witness :
    (convert_sequence_run ⟨false, false, false⟩ [] [] [Except.error "t"] 1 1 24
          ⟨none, false, []⟩).1.dest =
        some ((packU16 1 ++ packU16 1 ++ packU16 (truncate65535 [(Except.error "t" : FrameSrc)]).length ++
            packU16 24) ++
          (okPrefixImgs (truncate65535 [(Except.error "t" : FrameSrc)])).flatMap (encodeFrame 1 1)) :=
  (write_in_place_behavior ⟨false, false, false⟩ [] [] [Except.error "t"] [] 1 1 24
    ⟨none, false, []⟩).1

theorem nameLe_total : ∀ a b : Name, nameLe a b = true ∨ nameLe b a = true := by
  intro a
  induction a with
  | nil => intro b; left; rfl
  | cons c s ih =>
    intro b
    cases b with
    | nil => right; rfl
    | cons d t =>
      by_cases h : c = d
      · subst h
        rcases ih t with h1 | h1
        · left; simpa [nameLe] using h1
        · right; simpa [nameLe] using h1
      · rcases lt_or_gt_of_ne h with hlt | hlt
        · left; simp [nameLe, h, hlt]
        · right; simp [nameLe, Ne.symm h, hlt]

theorem nameLe_trans :
    ∀ a b c : Name, nameLe a b = true → nameLe b c = true → nameLe a c = true := by
  intro a
  induction a with
  | nil => intro b c _ _; rfl
  | cons x s ih =>
    intro b c hab hbc
    cases b with
    | nil => simp [nameLe] at hab
    | cons y t =>
      cases c with
      | nil => simp [nameLe] at hbc
      | cons z u =>
        by_cases hxy : x = y
        · subst hxy
          by_cases hyz : x = z
          · subst hyz
            simp only [nameLe, if_pos rfl] at hab hbc ⊢
            exact ih t u hab hbc
          · simp only [nameLe, if_neg hyz] at hbc ⊢
            exact hbc
        · by_cases hyz : y = z
          · subst hyz
            simp only [nameLe, if_neg hxy] at hab ⊢
            exact hab
          · simp only [nameLe, if_neg hxy, if_neg hyz, decide_eq_true_eq] at hab hbc
            have hxz : x < z := lt_trans hab hbc
            simp only [nameLe, if_neg (ne_of_lt hxz), decide_eq_true_eq]
            exact hxz

instance : IsTotal Name fun a b => nameLe a b = true := ⟨nameLe_total⟩

instance : IsTrans Name fun a b => nameLe a b = true := ⟨fun a b c => nameLe_trans a b c⟩

/-- C7 counterexample: the extension of "a.Png" matches png case-insensitively
(it is a mixed-case form), yet gather_frames_from_folder does not collect it:
the code globs only the all-lower and all-upper variants, so only "b.png" is
collected from a listing holding both files. -/
theorem mixed_case_extension_missed :
    extMatchesCI "a.Png".toList = true ∧
      "a.Png".toList ∉ gather_files ["a.Png".toList, "b.png".toList] ∧
      gather_files ["a.Png".toList, "b.png".toList] = ["b.png".toList] := by
  decide

/-- C7 amended: the Directory source collects exactly the files whose name
matches an allowed extension in its all-lowercase or all-uppercase form (a
mixed-case extension such as ".Png" is not matched), deduplicates them, and
sorts them by name in lexicographic ascending order; a directory containing
b.png, a.png, c.png yields the order a, b, c. -/
theorem gather_collect_dedup_sort (listing : List Name) (f : Name) :
    (f ∈ gather_files listing ↔ f ∈ listing ∧ matchesLU f = true) ∧
      (gather_files listing).Nodup ∧
      List.Sorted (fun a b => nameLe a b = true) (gather_files listing) ∧
      gather_files ["b.png".toList, "a.png".toList, "c.png".toList] =
        ["a.png".toList, "b.png".toList, "c.png".toList] := by
  refine ⟨?_, ?_, ?_, by decide⟩
  · rw [gather_files, List.mem_insertionSort, List.mem_dedup]
    simp only [List.mem_flatMap, List.mem_append, List.mem_filter, matchesLU,
      List.any_eq_true, Bool.or_eq_true]
    constructor
    · rintro ⟨ext, hext, ⟨hf, hm⟩ | ⟨hf, hm⟩⟩
      · exact ⟨hf, ext, hext, Or.inl hm⟩
      · exact ⟨hf, ext, hext, Or.inr hm⟩
    · rintro ⟨hf, ext, hext, hm | hm⟩
      · exact ⟨ext, hext, Or.inl ⟨hf, hm⟩⟩
      · exact ⟨ext, hext, Or.inr ⟨hf, hm⟩⟩
  · rw [gather_files]
    exact ((List.perm_insertionSort _ _).nodup_iff).mpr (List.nodup_dedup _)
  · rw [gather_files]
    exact List.sorted_insertionSort _ _

theorem gather_collect_dedup_sort_witness :
    ("b.png".toList ∈ gather_files ["a.Png".toList, "b.png".toList] ↔
      "b.png".toList ∈ ["a.Png".toList, "b.png".toList] ∧
        matchesLU "b.png".toList = true) :=
  (gather_collect_dedup_sort ["a.Png".toList, "b.png".toList] "b.png".toList).1

end BlobConv
